import Mathlib

/-!
# Verification of the latebloom kernel extension

Shallow embedding of the latebloom kext (cfuncs.c, klookup.c, klookup.h)
and proofs about its boot-argument parser, pattern scanner, Mach-O
segment walker, symbol-table resolver, and the hook trampoline's delay
computation.

Machine integers are modelled as `Nat`/`Int` with explicit `% 2 ^ 32`
where 32-bit register wraparound matters.  Memory is modelled with
explicit fetch functions; the module's mutable variables are modelled
by explicit state records.
-/

set_option maxRecDepth 10000

/-! ## Constants (cfuncs.c, klookup.h) -/

/-- `HOOK_WINDOW_SIZE` (cfuncs.c line 102): maximum number of bytes to
search for hook placement. -/
def HOOK_WINDOW_SIZE : Nat := 3144

/-- `MAX_ARG_DIGITS` (cfuncs.c line 103): maximum number of digits in a
boot-arg value. -/
def MAX_ARG_DIGITS : Nat := 4

/-- `DEFAULT_SLEEP` (cfuncs.c line 104): default sleep in milliseconds if
`latebloom=` is not specified. -/
def DEFAULT_SLEEP : Int := 60

/-- `BIGSUR_XNU_MAJOR_VERSION` (klookup.h line 39). -/
def BIGSUR_XNU_MAJOR_VERSION : Nat := 20

/-! ## Hook trampoline delay computation (cfuncs.c asm lines 300-341)

The trampoline selects a base delay (`SleepValue` for Phase 1,
`lb_AltSleepValue` for Phase 2), and if the phase's random range is
nonzero it executes:

    rdtsc                      ; EDX:EAX := cycle counter   (sample c1)
    xorl %edx,%edx
    divl range                 ; EDX := (EAX mod range)
    movl %edx,%ebx             ; EBX := offset
    rdtsc                      ; EAX := cycle counter low   (sample c2)
    movl %ebx,%edx
    negl %edx                  ; EDX := (2^32 - offset) mod 2^32
    testl $0x01,%eax
    cmovnel %edx,%ebx          ; odd c2: use negated offset
    addl %ebx,%edi             ; delay := (base + EBX) mod 2^32

All registers are 32 bits, so every arithmetic step is taken modulo
`2 ^ 32`.  `c1` and `c2` are the two successive TSC samples (the code
reads the counter twice: once for the offset, once for the sign bit). -/
def latebloom_delay (base range c1 c2 : Nat) : Nat :=
  if range = 0 then base
  else
    let off := (c1 % 2 ^ 32) % range
    let negOff := (2 ^ 32 - off) % 2 ^ 32
    if c2 % 2 = 1 then (base + negOff) % 2 ^ 32 else (base + off) % 2 ^ 32

/-! ## Boot-argument digit scanning (cfuncs.c lines 392-404, 472, 484-491)

All three digit loops in the source scan at most `MAX_ARG_DIGITS`
decimal digits, stopping at the first non-digit.  `scanDigitsAux`
returns the accumulated value, the number of digits consumed, and the
rest of the string (the first non-consumed character is exactly the
`ptr[j]` the C code inspects after the loop). -/

def isDigitC (c : Char) : Bool := decide (48 ≤ c.toNat) && decide (c.toNat ≤ 57)

def digitVal (c : Char) : Int := (c.toNat : Int) - 48

def scanDigitsAux : Nat → List Char → Int → Nat → Int × Nat × List Char
  | 0, cs, acc, cnt => (acc, cnt, cs)
  | _ + 1, [], acc, cnt => (acc, cnt, [])
  | fuel + 1, c :: cs, acc, cnt =>
    if isDigitC c then scanDigitsAux fuel cs (acc * 10 + digitVal c) (cnt + 1)
    else (acc, cnt, c :: cs)

def scanDigits (cs : List Char) : Int × Nat × List Char :=
  scanDigitsAux MAX_ARG_DIGITS cs 0 0

/-- `ExtractArgValue` (cfuncs.c lines 392-404): scan up to four decimal
digits with default value 0, stop on first non-digit. -/
def ExtractArgValue (cs : List Char) : Int := (scanDigits cs).1

/-- The digit loop of the `latebloom=` branch (cfuncs.c lines 481-491):
`lbval` starts at `-1` and is reset to `0` at the first digit, so a
value with no digits at all yields `-1`. -/
def lbExtractAux : Nat → List Char → Int → Int
  | 0, _, acc => acc
  | _ + 1, [], acc => acc
  | fuel + 1, c :: cs, acc =>
    if isDigitC c then
      lbExtractAux fuel cs ((if acc = -1 then 0 else acc) * 10 + digitVal c)
    else acc

def latebloomValue (cs : List Char) : Int := lbExtractAux MAX_ARG_DIGITS cs (-1)

/-! ## Boot-argument key matching (cfuncs.c line 471)

`BOOTARG_MATCH(zstr)` is `!strncmp(&BootArgs[i], zstr, sizeof(zstr)-1)`:
an exact prefix comparison of the key against the suffix of the
boot-args string starting at position `i`. -/

def keyMatch : List Char → List Char → Bool
  | [], _ => true
  | _ :: _, [] => false
  | k :: ks, c :: cs => (k == c) && keyMatch ks cs

def kLatebloom : List Char := ['l', 'a', 't', 'e', 'b', 'l', 'o', 'o', 'm', '=']

def kDebug : List Char := ['l', 'b', '_', 'd', 'e', 'b', 'u', 'g', '=']

def kRange : List Char := ['l', 'b', '_', 'r', 'a', 'n', 'g', 'e', '=']

def kDelay2 : List Char := ['l', 'b', '_', 'd', 'e', 'l', 'a', 'y', '2', '=']

def kRange2 : List Char := ['l', 'b', '_', 'r', 'a', 'n', 'g', 'e', '2', '=']

def kLbloom : List Char := ['l', 'b', 'l', 'o', 'o', 'm', '=']

/-! ## The configuration record

The five module variables set by boot-args parsing (cfuncs.c lines
171-195): `SleepValue`, `lb_RandRange`, `lb_DebugLevel`,
`lb_AltSleepValue`, `lb_AltRandRange`.  The `-1` sentinel on the two
`Alt` fields means "not specified". -/
structure RawCfg where
  SleepValue : Int
  lb_RandRange : Int
  lb_DebugLevel : Int
  lb_AltSleepValue : Int
  lb_AltRandRange : Int
deriving DecidableEq, Repr

/-- Initial values of the five config variables (cfuncs.c lines 171-195). -/
def rawInit : RawCfg := ⟨0, 0, 0, -1, -1⟩

/-- One optional comma-separated field of the `lbloom=` composite key:
the C code checks `ptr[j] == ','` and, if so, advances past the comma
and scans up to four more digits (`EXTRACT_LBLOOM_VALUE`, line 472). -/
def nextFieldAt (t : List Char) : Option (Int × Nat × List Char) :=
  match t with
  | ',' :: t1 => some (scanDigits t1)
  | _ => none

/-- The four optional trailing fields of `lbloom=` (cfuncs.c lines
547-571): range, debug, delay2, range2.  A delay2 field with zero
digits (`j == 0`) is replaced by `SleepValue` (line 564). -/
def compositeTail (cfg : RawCfg) (t : List Char) : RawCfg :=
  match nextFieldAt t with
  | none => cfg
  | some (v1, _, t1) =>
    match nextFieldAt t1 with
    | none => { cfg with lb_RandRange := v1 }
    | some (v2, _, t2) =>
      match nextFieldAt t2 with
      | none => { cfg with lb_RandRange := v1, lb_DebugLevel := v2 }
      | some (v3, j3, t3) =>
        match nextFieldAt t3 with
        | none =>
          { cfg with lb_RandRange := v1, lb_DebugLevel := v2,
                     lb_AltSleepValue := if j3 = 0 then cfg.SleepValue else v3 }
        | some (v4, _, _) =>
          { cfg with lb_RandRange := v1, lb_DebugLevel := v2,
                     lb_AltSleepValue := if j3 = 0 then cfg.SleepValue else v3,
                     lb_AltRandRange := v4 }

/-- The `lbloom=` branch (cfuncs.c lines 523-574): zero the three
Phase-1 variables, scan the delay field, abort if it is 0 (which also
covers a blank or non-numeric field), otherwise take the optional
trailing fields. -/
def applyComposite (cfg : RawCfg) (t : List Char) : Except RawCfg RawCfg :=
  if (scanDigits t).1 = 0 then
    Except.error { cfg with SleepValue := 0, lb_RandRange := 0, lb_DebugLevel := 0 }
  else
    Except.ok (compositeTail
      { cfg with SleepValue := (scanDigits t).1, lb_RandRange := 0, lb_DebugLevel := 0 }
      (scanDigits t).2.2)

/-- The boot-args scanning loop (cfuncs.c lines 475-575): the index `i`
advances one character at a time over the whole string; at each
position the six keys are tried in source order.  `Except.error`
carries the state of the module variables at the early `return`
(user-disable abort). -/
def parseLoop (cfg : RawCfg) : List Char → Except RawCfg RawCfg
  | [] => Except.ok cfg
  | c :: rest =>
    if keyMatch kLatebloom (c :: rest) then
      let v := latebloomValue (List.drop 10 (c :: rest))
      if v ≤ 0 then Except.error cfg
      else parseLoop { cfg with SleepValue := v } rest
    else if keyMatch kDebug (c :: rest) then
      parseLoop { cfg with lb_DebugLevel := ExtractArgValue (List.drop 9 (c :: rest)) } rest
    else if keyMatch kRange (c :: rest) then
      parseLoop { cfg with lb_RandRange := ExtractArgValue (List.drop 9 (c :: rest)) } rest
    else if keyMatch kDelay2 (c :: rest) then
      parseLoop { cfg with lb_AltSleepValue := ExtractArgValue (List.drop 10 (c :: rest)) } rest
    else if keyMatch kRange2 (c :: rest) then
      parseLoop { cfg with lb_AltRandRange := ExtractArgValue (List.drop 10 (c :: rest)) } rest
    else if keyMatch kLbloom (c :: rest) then
      match applyComposite cfg (List.drop 7 (c :: rest)) with
      | Except.error cfgZ => Except.error cfgZ
      | Except.ok cfgN => parseLoop cfgN rest
    else parseLoop cfg rest

/-- Post-processing step 1 (cfuncs.c lines 582-590): an unset Phase-1
delay becomes `DEFAULT_SLEEP`. -/
def ppSleep (r : RawCfg) : RawCfg :=
  if r.SleepValue = 0 then { r with SleepValue := DEFAULT_SLEEP } else r

/-- Post-processing step 2 (cfuncs.c lines 591-599): an unset Phase-2
delay mirrors the resolved Phase-1 delay. -/
def ppAlt (r : RawCfg) : RawCfg :=
  if r.lb_AltSleepValue ≠ -1 then r else { r with lb_AltSleepValue := r.SleepValue }

/-- Post-processing step 3 (cfuncs.c lines 600-609): a nonzero Phase-1
range is clamped down to the Phase-1 delay. -/
def ppRange (r : RawCfg) : RawCfg :=
  if r.lb_RandRange ≠ 0 then
    (if r.lb_RandRange > r.SleepValue then { r with lb_RandRange := r.SleepValue } else r)
  else r

/-- The final clamp of post-processing step 4 (cfuncs.c lines 616-620). -/
def ppAltRangeClamp (r : RawCfg) : RawCfg :=
  if r.lb_AltRandRange > r.lb_AltSleepValue then
    { r with lb_AltRandRange := r.lb_AltSleepValue }
  else r

/-- Post-processing step 4 (cfuncs.c lines 610-626): a Phase-2 range
still at the `-1` sentinel inherits the (already clamped) Phase-1
range, then is clamped down to the Phase-2 delay. -/
def ppAltRange (r : RawCfg) : RawCfg :=
  if r.lb_AltRandRange ≠ 0 then
    ppAltRangeClamp
      (if r.lb_AltRandRange = -1 then { r with lb_AltRandRange := r.lb_RandRange } else r)
  else r

/-- Post-processing of defaults after the scanning loop (cfuncs.c lines
582-626), in source order: default Phase-1 delay, mirror Phase-2 delay,
clamp Phase-1 range, resolve and clamp Phase-2 range. -/
def postProcess (r : RawCfg) : RawCfg := ppAltRange (ppRange (ppAlt (ppSleep r)))

/-- Full one-shot configuration parse: the scanning loop from the
initial variable values followed by post-processing (the parse runs
once, guarded by `SleepValue == 0` at cfuncs.c line 446). -/
def parseConfig (cs : List Char) : Except RawCfg RawCfg :=
  match parseLoop rawInit cs with
  | Except.error r => Except.error r
  | Except.ok r => Except.ok (postProcess r)

def isAbort (e : Except RawCfg RawCfg) : Bool :=
  match e with
  | Except.error _ => true
  | Except.ok _ => false

/-! ## First sanity theorem (claim C4) -/

/-- **C4**: Parsing the composite key with all five fields present, as in
`lbloom=90,20,1,30,5`, assigns the comma-separated unsigned integer
fields in fixed order: SleepValue=90, RandRange=20, DebugLevel=1,
AltSleepValue=30, AltRandRange=5. -/
theorem C4_composite_order :
    parseConfig (String.toList "lbloom=90,20,1,30,5") =
      Except.ok ⟨90, 20, 1, 30, 5⟩ := by
  rfl

/-! ## Claim C1: trampoline delay bounds -/

/-- Helper: adding the 32-bit two's complement of `off` to `base`
subtracts `off` when `off ≤ base < 2 ^ 32`. -/
theorem add_negOff_eq_sub (base off : Nat) (hob : off ≤ base) (hb : base < 2 ^ 32) :
    (base + (2 ^ 32 - off) % 2 ^ 32) % 2 ^ 32 = base - off := by
  rcases Nat.eq_zero_or_pos off with h0 | hpos
  · subst h0
    simp only [Nat.sub_zero, Nat.mod_self, Nat.add_zero, Nat.sub_zero]
    exact Nat.mod_eq_of_lt hb
  · have h1 : (2 ^ 32 - off) % 2 ^ 32 = 2 ^ 32 - off := by
      apply Nat.mod_eq_of_lt
      omega
    rw [h1]
    have h2 : base + (2 ^ 32 - off) = (base - off) + 2 ^ 32 := by omega
    rw [h2, Nat.add_mod_right]
    apply Nat.mod_eq_of_lt
    omega

/-- **C1 (counterexample)**: the claim quantifies over every base delay
`B` and range `R` with `0 < R ≤ B`, but the 32-bit `addl` wraps: at
`B = 2 ^ 32 - 1`, `R = 2`, counter samples `1` (offset `1`) and `0`
(even, so add), the computed delay is `0`, far below `B - R`. -/
theorem C1_counterexample :
    latebloom_delay (2 ^ 32 - 1) 2 1 0 = 0 ∧
      ¬ (2 ^ 32 - 1 - 2 ≤ latebloom_delay (2 ^ 32 - 1) 2 1 0) := by
  constructor
  · rfl
  · intro h
    have : latebloom_delay (2 ^ 32 - 1) 2 1 0 = 0 := by rfl
    rw [this] at h
    omega

/-- **C1 (amended)**: for every base delay `B` and jitter range `R` with
`0 < R ≤ B` and `B + R < 2 ^ 32` (true of every configurable delay,
which is at most 9999), and for all values `c1`, `c2` of the two
hardware cycle-counter samples, the trampoline's delay is `B` plus or
minus the offset `(c1 mod 2 ^ 32) mod R`, which lies in `[0, R)`; hence
the delay always lies in `[B - R, B + R]` and is never negative. -/
theorem C1_delay_bounds (B R c1 c2 : Nat) (hR : 0 < R) (hRB : R ≤ B)
    (hfit : B + R < 2 ^ 32) :
    (c1 % 2 ^ 32) % R < R ∧
    (latebloom_delay B R c1 c2 = B + (c1 % 2 ^ 32) % R ∨
      latebloom_delay B R c1 c2 = B - (c1 % 2 ^ 32) % R) ∧
    B - R ≤ latebloom_delay B R c1 c2 ∧
    latebloom_delay B R c1 c2 ≤ B + R := by
  have hoff : (c1 % 2 ^ 32) % R < R := Nat.mod_lt _ hR
  have hRne : ¬ (R = 0) := by omega
  set off := (c1 % 2 ^ 32) % R with hoffdef
  have hsub : (B + (2 ^ 32 - off) % 2 ^ 32) % 2 ^ 32 = B - off :=
    add_negOff_eq_sub B off (by omega) (by omega)
  have hadd : (B + off) % 2 ^ 32 = B + off := Nat.mod_eq_of_lt (by omega)
  unfold latebloom_delay
  rw [if_neg hRne]
  simp only [← hoffdef]
  by_cases hc : c2 % 2 = 1
  · rw [if_pos hc, hsub]
    exact ⟨hoff, Or.inr rfl, by omega, by omega⟩
  · rw [if_neg hc, hadd]
    exact ⟨hoff, Or.inl rfl, by omega, by omega⟩

/-- **C1 (witness)**: concrete instance of `C1_delay_bounds` at
`B = 100`, `R = 30`, counter samples `7` and `4`. -/
theorem C1_delay_bounds_witness :
    0 < 30 ∧ 30 ≤ 100 ∧ 100 + 30 < 2 ^ 32 ∧
      (100 - 30 ≤ latebloom_delay 100 30 7 4 ∧ latebloom_delay 100 30 7 4 ≤ 100 + 30) :=
  ⟨by norm_num, by norm_num, by norm_num,
    (C1_delay_bounds 100 30 7 4 (by norm_num) (by norm_num) (by norm_num)).2.2⟩

/-! ## Claim C2: pattern scan over the hook window

The byte-signature catalogue (cfuncs.c lines 127-156) and the scanning
loop of `latebloom_start` (lines 652-663).  The probed code window is
modelled as a byte-fetch function `Nat → Nat` (byte value at each
offset from the entry of `IOPCIBridge::probeBus`). -/

/-- `BytePattern113` (cfuncs.c lines 127-131). -/
def BytePattern113 : List Nat :=
  [0x48, 0xc7, 0x45, 0xd0, 0x00, 0x00, 0x00, 0x00, 0x49, 0x8b, 0x06, 0x4c, 0x89, 0xf7]

/-- `BytePattern115b2` (cfuncs.c lines 132-136). -/
def BytePattern115b2 : List Nat :=
  [0x48, 0xc7, 0x45, 0xd0, 0x00, 0x00, 0x00, 0x00, 0x49, 0x8b, 0x07, 0x4c, 0x89, 0xff]

/-- `BytePattern12b3` (cfuncs.c lines 138-142). -/
def BytePattern12b3 : List Nat :=
  [0x48, 0xc7, 0x45, 0xc8, 0x00, 0x00, 0x00, 0x00, 0x49, 0x8b, 0x07, 0x4c, 0x89, 0xff]

/-- The ordered catalogue `BytePatterns` (cfuncs.c lines 146-156); the
terminating `{ NULL, 0 }` entry is the end of this list. -/
def BytePatterns : List (List Nat) := [BytePattern113, BytePattern115b2, BytePattern12b3]

/-- `memcmp(ptr, pattern, size) == 0` (cfuncs.c line 657): exact byte
comparison of the pattern against the buffer starting at offset `i`. -/
def matchBytes (buf : Nat → Nat) : Nat → List Nat → Bool
  | _, [] => true
  | i, b :: rest => (buf i == b) && matchBytes buf (i + 1) rest

/-- The inner catalogue loop (cfuncs.c lines 655-662): the index of the
first catalogue pattern matching at offset `i`, or `none`. -/
def patternIndexAt (buf : Nat → Nat) (i : Nat) : List (List Nat) → Option Nat
  | [] => none
  | p :: rest =>
    if matchBytes buf i p then some 0
    else Option.map (· + 1) (patternIndexAt buf i rest)

/-- The outer window loop (cfuncs.c lines 653-663): offsets are tried in
increasing order while `i < HOOK_WINDOW_SIZE` and no match has been
recorded; on success the match offset and the pattern index are kept. -/
def hookScanAux (buf : Nat → Nat) : Nat → Nat → Option (Nat × Nat)
  | _, 0 => none
  | i, fuel + 1 =>
    match patternIndexAt buf i BytePatterns with
    | some w => some (i, w)
    | none => hookScanAux buf (i + 1) fuel

def hookScan (buf : Nat → Nat) : Option (Nat × Nat) := hookScanAux buf 0 HOOK_WINDOW_SIZE

theorem patternIndexAt_some_iff (buf : Nat → Nat) (i : Nat) :
    ∀ (l : List (List Nat)) (w : Nat),
      patternIndexAt buf i l = some w ↔
        ((∃ p, l.get? w = some p ∧ matchBytes buf i p = true) ∧
          ∀ v p, v < w → l.get? v = some p → matchBytes buf i p = false) := by
  intro l
  induction l with
  | nil => intro w; simp [patternIndexAt]
  | cons p rest ih =>
    intro w
    by_cases hp : matchBytes buf i p
    · simp only [patternIndexAt, if_pos hp]
      cases w with
      | zero => simp [hp]
      | succ w =>
        constructor
        · intro h; simp at h
        · rintro ⟨-, hall⟩
          exact absurd hp (by simpa using hall 0 p (Nat.succ_pos w) rfl)
    · simp only [patternIndexAt, if_neg hp]
      cases w with
      | zero =>
        constructor
        · intro h
          rcases Option.map_eq_some'.mp h with ⟨k, -, hk⟩
          omega
        · rintro ⟨⟨q, hq, hmq⟩, -⟩
          simp at hq
          subst hq
          exact absurd hmq (by simpa using hp)
      | succ w =>
        rw [show (some (w + 1) = Option.map (· + 1) (some w)) from rfl]
        constructor
        · intro h
          rcases Option.map_eq_some'.mp h with ⟨k, hk, hke⟩
          have hke2 : k + 1 = w + 1 := hke
          have hkw : k = w := by omega
          rw [hkw] at hk
          rcases (ih w).mp hk with ⟨⟨q, hq, hmq⟩, hall⟩
          refine ⟨⟨q, by simpa using hq, hmq⟩, ?_⟩
          intro v r hv hr
          cases v with
          | zero =>
            simp at hr
            subst hr
            simpa using hp
          | succ v => exact hall v r (by omega) (by simpa using hr)
        · rintro ⟨⟨q, hq, hmq⟩, hall⟩
          have hrest : patternIndexAt buf i rest = some w := by
            refine (ih w).mpr ⟨⟨q, by simpa using hq, hmq⟩, ?_⟩
            intro v r hv hr
            exact hall (v + 1) r (by omega) (by simpa using hr)
          rw [hrest]

theorem patternIndexAt_none_iff (buf : Nat → Nat) (i : Nat) :
    ∀ l : List (List Nat),
      patternIndexAt buf i l = none ↔ ∀ p, p ∈ l → matchBytes buf i p = false := by
  intro l
  induction l with
  | nil => simp [patternIndexAt]
  | cons p rest ih =>
    by_cases hp : matchBytes buf i p
    · simp [patternIndexAt, if_pos hp, hp]
    · simp only [patternIndexAt, if_neg hp, Option.map_eq_none', ih]
      constructor
      · intro h q hq
        rcases List.mem_cons.mp hq with rfl | hq2
        · simpa using hp
        · exact h q hq2
      · intro h q hq
        exact h q (List.mem_cons_of_mem _ hq)

theorem hookScanAux_eq_none (buf : Nat → Nat) :
    ∀ (fuel i : Nat),
      (∀ j, i ≤ j → j < i + fuel → patternIndexAt buf j BytePatterns = none) →
      hookScanAux buf i fuel = none := by
  intro fuel
  induction fuel with
  | zero => intro i _; rfl
  | succ f ih =>
    intro i h
    have h0 : patternIndexAt buf i BytePatterns = none := h i (le_refl i) (by omega)
    simp only [hookScanAux, h0]
    exact ih (i + 1) (fun j hj1 hj2 => h j (by omega) (by omega))

theorem hookScanAux_eq_some (buf : Nat → Nat) (K w : Nat)
    (hK : patternIndexAt buf K BytePatterns = some w) :
    ∀ (fuel i : Nat), i ≤ K → K < i + fuel →
      (∀ j, i ≤ j → j < K → patternIndexAt buf j BytePatterns = none) →
      hookScanAux buf i fuel = some (K, w) := by
  intro fuel
  induction fuel with
  | zero => intro i h1 h2 _; omega
  | succ f ih =>
    intro i h1 h2 hnone
    rcases Nat.eq_or_lt_of_le h1 with heq | hlt
    · subst heq
      simp only [hookScanAux, hK]
    · have h0 : patternIndexAt buf i BytePatterns = none := hnone i (le_refl i) hlt
      simp only [hookScanAux, h0]
      exact ih (i + 1) (by omega) (by omega) (fun j hj1 hj2 => hnone j (by omega) hj2)

/-- **C2**: the pattern scan over the `HOOK_WINDOW_SIZE`-byte window
starting at the target function's entry returns, for a buffer whose
first catalogue match is pattern `w` at offset `K` inside the window,
the pair `(K, w)` (scanning stops at that first success); it returns
`none` (`PatternNotFound`) when no catalogue signature matches at any
offset of the window.  At a single offset, matching is exact byte
comparison and the first catalogue entry that matches wins. -/
theorem C2_pattern_scan (buf : Nat → Nat) :
    (∀ K w, K < HOOK_WINDOW_SIZE →
      patternIndexAt buf K BytePatterns = some w →
      (∀ j, j < K → patternIndexAt buf j BytePatterns = none) →
      hookScan buf = some (K, w)) ∧
    ((∀ j, j < HOOK_WINDOW_SIZE → patternIndexAt buf j BytePatterns = none) →
      hookScan buf = none) ∧
    (∀ i w, patternIndexAt buf i BytePatterns = some w ↔
      ((∃ p, BytePatterns.get? w = some p ∧ matchBytes buf i p = true) ∧
        ∀ v p, v < w → BytePatterns.get? v = some p → matchBytes buf i p = false)) ∧
    (∀ i, patternIndexAt buf i BytePatterns = none ↔
      ∀ p, p ∈ BytePatterns → matchBytes buf i p = false) := by
  refine ⟨?_, ?_, ?_, ?_⟩
  · intro K w hK hsome hnone
    exact hookScanAux_eq_some buf K w hsome HOOK_WINDOW_SIZE 0 (Nat.zero_le K)
      (by omega) (fun j hj1 hj2 => hnone j hj2)
  · intro h
    exact hookScanAux_eq_none buf HOOK_WINDOW_SIZE 0 (fun j hj1 hj2 => h j (by omega))
  · intro i w
    exact patternIndexAt_some_iff buf i BytePatterns w
  · intro i
    exact patternIndexAt_none_iff buf i BytePatterns

/-! ## Claim C3: abort conditions of the boot-args parse -/

theorem keyMatch_length : ∀ (k s : List Char), keyMatch k s = true → k.length ≤ s.length
  | [], _, _ => by simp
  | _ :: _, [], h => by simp [keyMatch] at h
  | a :: ks, c :: cs, h => by
    simp only [keyMatch, Bool.and_eq_true] at h
    simpa using keyMatch_length ks cs h.2

/-- `latebloom=` and `lbloom=` differ at their second character, so no
position of the boot-args string matches both. -/
theorem lbloom_false_of_latebloom (s : List Char) (h : keyMatch kLatebloom s = true) :
    keyMatch kLbloom s = false := by
  match s with
  | [] => simp [kLatebloom, keyMatch] at h
  | [c0] => simp [kLatebloom, keyMatch] at h
  | c0 :: c1 :: t =>
    simp only [kLatebloom, keyMatch, Bool.and_eq_true, beq_iff_eq] at h
    obtain ⟨h0, h1, -⟩ := h
    subst h0
    subst h1
    simp [kLbloom, keyMatch]

/-- `lb_debug=` and `lbloom=` differ at their third character. -/
theorem lbloom_false_of_debug (s : List Char) (h : keyMatch kDebug s = true) :
    keyMatch kLbloom s = false := by
  match s with
  | [] => simp [kDebug, keyMatch] at h
  | [c0] => simp [kDebug, keyMatch] at h
  | [c0, c1] => simp [kDebug, keyMatch] at h
  | c0 :: c1 :: c2 :: t =>
    simp only [kDebug, keyMatch, Bool.and_eq_true, beq_iff_eq] at h
    obtain ⟨h0, h1, h2, -⟩ := h
    subst h0
    subst h1
    subst h2
    simp [kLbloom, keyMatch]

/-- `lb_range=` and `lbloom=` differ at their third character. -/
theorem lbloom_false_of_range (s : List Char) (h : keyMatch kRange s = true) :
    keyMatch kLbloom s = false := by
  match s with
  | [] => simp [kRange, keyMatch] at h
  | [c0] => simp [kRange, keyMatch] at h
  | [c0, c1] => simp [kRange, keyMatch] at h
  | c0 :: c1 :: c2 :: t =>
    simp only [kRange, keyMatch, Bool.and_eq_true, beq_iff_eq] at h
    obtain ⟨h0, h1, h2, -⟩ := h
    subst h0
    subst h1
    subst h2
    simp [kLbloom, keyMatch]

/-- `lb_delay2=` and `lbloom=` differ at their third character. -/
theorem lbloom_false_of_delay2 (s : List Char) (h : keyMatch kDelay2 s = true) :
    keyMatch kLbloom s = false := by
  match s with
  | [] => simp [kDelay2, keyMatch] at h
  | [c0] => simp [kDelay2, keyMatch] at h
  | [c0, c1] => simp [kDelay2, keyMatch] at h
  | c0 :: c1 :: c2 :: t =>
    simp only [kDelay2, keyMatch, Bool.and_eq_true, beq_iff_eq] at h
    obtain ⟨h0, h1, h2, -⟩ := h
    subst h0
    subst h1
    subst h2
    simp [kLbloom, keyMatch]

/-- `lb_range2=` and `lbloom=` differ at their third character. -/
theorem lbloom_false_of_range2 (s : List Char) (h : keyMatch kRange2 s = true) :
    keyMatch kLbloom s = false := by
  match s with
  | [] => simp [kRange2, keyMatch] at h
  | [c0] => simp [kRange2, keyMatch] at h
  | [c0, c1] => simp [kRange2, keyMatch] at h
  | c0 :: c1 :: c2 :: t =>
    simp only [kRange2, keyMatch, Bool.and_eq_true, beq_iff_eq] at h
    obtain ⟨h0, h1, h2, -⟩ := h
    subst h0
    subst h1
    subst h2
    simp [kLbloom, keyMatch]

theorem applyComposite_error_val (cfg : RawCfg) (t : List Char) (z : RawCfg)
    (h : applyComposite cfg t = Except.error z) : (scanDigits t).1 = 0 := by
  by_cases hz : (scanDigits t).1 = 0
  · exact hz
  · simp only [applyComposite, if_neg hz] at h
    simp at h

theorem applyComposite_ok_val (cfg : RawCfg) (t : List Char) (n : RawCfg)
    (h : applyComposite cfg t = Except.ok n) : ¬ (scanDigits t).1 = 0 := by
  intro hz
  simp only [applyComposite, if_pos hz] at h
  simp at h

/-- The exact condition that makes the scanning loop return early: at a
position matching `latebloom=`, a value that is empty, non-numeric, or
0 (`lbval <= 0` at cfuncs.c line 492); at a position matching
`lbloom=`, a first field whose digit scan yields 0, including the blank
and non-numeric cases (line 540). -/
def abortTrigger (s : List Char) : Prop :=
  (keyMatch kLatebloom s = true ∧ latebloomValue (List.drop 10 s) ≤ 0) ∨
  (keyMatch kLbloom s = true ∧ (scanDigits (List.drop 7 s)).1 = 0)

theorem exists_drop_cons {P : List Char → Prop} (c : Char) (rest : List Char) :
    (∃ k, P (List.drop k (c :: rest))) ↔ P (c :: rest) ∨ ∃ k, P (List.drop k rest) := by
  constructor
  · rintro ⟨k, hk⟩
    cases k with
    | zero => exact Or.inl hk
    | succ k => exact Or.inr ⟨k, by simpa using hk⟩
  · rintro (h | ⟨k, hk⟩)
    · exact ⟨0, h⟩
    · exact ⟨k + 1, by simpa using hk⟩

/-- **C3 (amended)**: the scanning loop aborts (returns early so that no
hook is installed) exactly when some position of the boot-args string
triggers `abortTrigger`: a `latebloom=` key whose value is empty,
non-numeric or 0, or an `lbloom=` key whose first (delay) field parses
to 0 (explicitly, blank, or non-numeric). -/
theorem C3_abort_iff : ∀ (cs : List Char) (cfg : RawCfg),
    isAbort (parseLoop cfg cs) = true ↔ ∃ k, abortTrigger (List.drop k cs) := by
  intro cs
  induction cs with
  | nil =>
    intro cfg
    simp only [parseLoop, isAbort]
    constructor
    · intro h
      exact absurd h (by simp)
    · rintro ⟨k, hk⟩
      rw [List.drop_nil] at hk
      rcases hk with ⟨hm, -⟩ | ⟨hm, -⟩ <;> simp [keyMatch, kLatebloom, kLbloom] at hm
  | cons c rest ih =>
    intro cfg
    rw [exists_drop_cons]
    simp only [parseLoop]
    by_cases h1 : keyMatch kLatebloom (c :: rest) = true
    · rw [if_pos h1]
      by_cases h2 : latebloomValue (List.drop 10 (c :: rest)) ≤ 0
      · rw [if_pos h2]
        exact iff_of_true rfl (Or.inl (Or.inl ⟨h1, h2⟩))
      · rw [if_neg h2]
        refine (ih _).trans (or_iff_right ?_).symm
        rintro (⟨-, hv⟩ | ⟨hm, -⟩)
        · exact h2 hv
        · rw [lbloom_false_of_latebloom _ h1] at hm
          exact absurd hm (by simp)
    · rw [if_neg h1]
      by_cases h2 : keyMatch kDebug (c :: rest) = true
      · rw [if_pos h2]
        refine (ih _).trans (or_iff_right ?_).symm
        rintro (⟨hm, -⟩ | ⟨hm, -⟩)
        · exact h1 hm
        · rw [lbloom_false_of_debug _ h2] at hm
          exact absurd hm (by simp)
      · rw [if_neg h2]
        by_cases h3 : keyMatch kRange (c :: rest) = true
        · rw [if_pos h3]
          refine (ih _).trans (or_iff_right ?_).symm
          rintro (⟨hm, -⟩ | ⟨hm, -⟩)
          · exact h1 hm
          · rw [lbloom_false_of_range _ h3] at hm
            exact absurd hm (by simp)
        · rw [if_neg h3]
          by_cases h4 : keyMatch kDelay2 (c :: rest) = true
          · rw [if_pos h4]
            refine (ih _).trans (or_iff_right ?_).symm
            rintro (⟨hm, -⟩ | ⟨hm, -⟩)
            · exact h1 hm
            · rw [lbloom_false_of_delay2 _ h4] at hm
              exact absurd hm (by simp)
          · rw [if_neg h4]
            by_cases h5 : keyMatch kRange2 (c :: rest) = true
            · rw [if_pos h5]
              refine (ih _).trans (or_iff_right ?_).symm
              rintro (⟨hm, -⟩ | ⟨hm, -⟩)
              · exact h1 hm
              · rw [lbloom_false_of_range2 _ h5] at hm
                exact absurd hm (by simp)
            · rw [if_neg h5]
              by_cases h6 : keyMatch kLbloom (c :: rest) = true
              · rw [if_pos h6]
                cases happ : applyComposite cfg (List.drop 7 (c :: rest)) with
                | error z =>
                  exact iff_of_true rfl
                    (Or.inl (Or.inr ⟨h6, applyComposite_error_val _ _ _ happ⟩))
                | ok n =>
                  refine (ih _).trans (or_iff_right ?_).symm
                  rintro (⟨hm, -⟩ | ⟨-, hz⟩)
                  · exact h1 hm
                  · exact applyComposite_ok_val _ _ _ happ hz
              · rw [if_neg h6]
                refine (ih _).trans (or_iff_right ?_).symm
                rintro (⟨hm, -⟩ | ⟨hm, -⟩)
                · exact h1 hm
                · exact h6 hm

/-- **C3 (amended, witness)**: `latebloom=0` aborts the parse. -/
theorem C3_abort_iff_witness :
    isAbort (parseLoop rawInit (kLatebloom ++ ['0'])) = true :=
  (C3_abort_iff (kLatebloom ++ ['0']) rawInit).mpr ⟨0, Or.inl (by decide)⟩

/-- The claim's abort condition: one of the two delay keys carries an
explicitly written value 0 (at least one digit, parsing to 0). -/
def explicitZeroTrigger (s : List Char) : Prop :=
  (keyMatch kLatebloom s = true ∧ 1 ≤ (scanDigits (List.drop 10 s)).2.1 ∧
    (scanDigits (List.drop 10 s)).1 = 0) ∨
  (keyMatch kLbloom s = true ∧ 1 ≤ (scanDigits (List.drop 7 s)).2.1 ∧
    (scanDigits (List.drop 7 s)).1 = 0)

/-- **C3 (counterexample)**: the boot-args string `latebloom=` (the
combined delay key with an empty value) makes the parse abort although
no position carries an explicit value 0, refuting "returns Abort
exactly when ... carries the explicit value 0". -/
theorem C3_counterexample :
    isAbort (parseLoop rawInit kLatebloom) = true ∧
      ¬ ∃ k, explicitZeroTrigger (List.drop k kLatebloom) := by
  constructor
  · rfl
  · rintro ⟨k, hk⟩
    rcases hk with ⟨hm, hc, -⟩ | ⟨hm, -, -⟩
    · have h10 : (10 : Nat) ≤ 10 - k := by
        have := keyMatch_length _ _ hm
        simpa [kLatebloom, List.length_drop] using this
      have hk0 : k = 0 := by omega
      subst hk0
      exact absurd hc (by decide)
    · have h7 : (7 : Nat) ≤ 10 - k := by
        have := keyMatch_length _ _ hm
        simpa [kLbloom, kLatebloom, List.length_drop] using this
      have hk3 : k ≤ 3 := by omega
      interval_cases k <;> exact absurd hm (by decide)

/-! ## Claim C5: blank composite fields -/

theorem scanDigitsAux_cnt_mono : ∀ (fuel : Nat) (cs : List Char) (acc : Int) (cnt : Nat),
    cnt ≤ (scanDigitsAux fuel cs acc cnt).2.1 := by
  intro fuel
  induction fuel with
  | zero => intro cs acc cnt; simp [scanDigitsAux]
  | succ f ih =>
    intro cs acc cnt
    cases cs with
    | nil => simp [scanDigitsAux]
    | cons c r =>
      by_cases hd : isDigitC c = true
      · simp only [scanDigitsAux, if_pos hd]
        exact le_trans (Nat.le_succ cnt) (ih r _ (cnt + 1))
      · simp [scanDigitsAux, if_neg hd]

/-- If the digit scan consumed no digit, the accumulator is untouched. -/
theorem scanDigitsAux_cnt_fix : ∀ (fuel : Nat) (cs : List Char) (acc : Int) (cnt : Nat),
    (scanDigitsAux fuel cs acc cnt).2.1 = cnt → (scanDigitsAux fuel cs acc cnt).1 = acc := by
  intro fuel
  induction fuel with
  | zero => intro cs acc cnt _; rfl
  | succ f ih =>
    intro cs acc cnt h
    cases cs with
    | nil => rfl
    | cons c r =>
      by_cases hd : isDigitC c = true
      · exfalso
        rw [show scanDigitsAux (f + 1) (c :: r) acc cnt =
              scanDigitsAux f r (acc * 10 + digitVal c) (cnt + 1) from by
            simp [scanDigitsAux, if_pos hd]] at h
        have := scanDigitsAux_cnt_mono f r (acc * 10 + digitVal c) (cnt + 1)
        omega
      · simp [scanDigitsAux, if_neg hd]

/-- A blank field (zero digits consumed) scans to value 0. -/
theorem scanDigits_blank_val (t : List Char) (h : (scanDigits t).2.1 = 0) :
    (scanDigits t).1 = 0 :=
  scanDigitsAux_cnt_fix MAX_ARG_DIGITS t 0 0 h

theorem nextFieldAt_cnt_zero (t t1 : List Char) (v : Int)
    (h : nextFieldAt t = some (v, 0, t1)) : v = 0 := by
  cases t with
  | nil => simp [nextFieldAt] at h
  | cons a ts =>
    simp only [nextFieldAt] at h
    split at h
    · rename_i ts2 heq
      injection h with h2
      have hcnt : (scanDigits ts2).2.1 = 0 := by rw [h2]
      have hval := scanDigits_blank_val ts2 hcnt
      rw [h2] at hval
      exact hval
    · exact absurd h (by simp)

/-- **C5 (amended)**: in the composite `lbloom=` key, a blank field
(zero digits between its leading comma and the next delimiter) yields
value 0, so a blank range, debug or range2 field is assigned 0 — but a
blank delay2 field is assigned the already-parsed composite delay
(`SleepValue`), not 0 (cfuncs.c line 564). -/
theorem C5_blank_fields (cfg : RawCfg) (t : List Char) :
    (∀ v1 t1, nextFieldAt t = some (v1, 0, t1) →
      v1 = 0 ∧ (compositeTail cfg t).lb_RandRange = 0) ∧
    (∀ v1 j1 t1 v2 t2, nextFieldAt t = some (v1, j1, t1) →
      nextFieldAt t1 = some (v2, 0, t2) →
      v2 = 0 ∧ (compositeTail cfg t).lb_DebugLevel = 0) ∧
    (∀ v1 j1 t1 v2 j2 t2 v3 t3, nextFieldAt t = some (v1, j1, t1) →
      nextFieldAt t1 = some (v2, j2, t2) → nextFieldAt t2 = some (v3, 0, t3) →
      (compositeTail cfg t).lb_AltSleepValue = cfg.SleepValue) ∧
    (∀ v1 j1 t1 v2 j2 t2 v3 j3 t3 v4 t4, nextFieldAt t = some (v1, j1, t1) →
      nextFieldAt t1 = some (v2, j2, t2) → nextFieldAt t2 = some (v3, j3, t3) →
      nextFieldAt t3 = some (v4, 0, t4) →
      v4 = 0 ∧ (compositeTail cfg t).lb_AltRandRange = 0) := by
  refine ⟨?_, ?_, ?_, ?_⟩
  · intro v1 t1 h
    have hv := nextFieldAt_cnt_zero _ _ _ h
    refine ⟨hv, ?_⟩
    simp only [compositeTail, h]
    split
    all_goals try split
    all_goals try split
    all_goals simp [hv]
  · intro v1 j1 t1 v2 t2 h h1
    have hv := nextFieldAt_cnt_zero _ _ _ h1
    refine ⟨hv, ?_⟩
    simp only [compositeTail, h, h1]
    split
    all_goals try split
    all_goals simp [hv]
  · intro v1 j1 t1 v2 j2 t2 v3 t3 h h1 h2
    simp only [compositeTail, h, h1, h2]
    split
    all_goals simp
  · intro v1 j1 t1 v2 j2 t2 v3 j3 t3 v4 t4 h h1 h2 h3
    have hv := nextFieldAt_cnt_zero _ _ _ h3
    exact ⟨hv, by simp only [compositeTail, h, h1, h2, h3]; simp [hv]⟩

/-- **C5 (amended, witness)**: with composite delay 9 and four blank
trailing fields, delay2 is assigned 9 (the composite delay). -/
theorem C5_blank_fields_witness :
    (compositeTail ⟨9, 0, 0, -1, -1⟩ [',', ',', ',', ',']).lb_AltSleepValue = 9 :=
  (C5_blank_fields ⟨9, 0, 0, -1, -1⟩ [',', ',', ',', ',']).2.2.1
    0 0 [',', ',', ','] 0 0 [',', ','] 0 [','] (by decide) (by decide) (by decide)

/-- **C5 (counterexample)**: parsing `lbloom=9,,,,` (all four trailing
fields blank) assigns `lb_AltSleepValue = 9`, not 0, refuting "every
field that is absent or empty between commas parses to 0". -/
theorem C5_counterexample :
    parseLoop rawInit (String.toList "lbloom=9,,,,") = Except.ok ⟨9, 0, 0, 9, 0⟩ ∧
      ¬ ((9 : Int) = 0) := ⟨by rfl, by decide⟩

/-! ## Claim C6: post-processing of defaults and clamping -/

/-- The invariant the scanning loop maintains on the five config
variables: the three Phase-1 values are nonnegative and the two Phase-2
values are at least the `-1` sentinel. -/
def rawWF (r : RawCfg) : Prop :=
  0 ≤ r.SleepValue ∧ 0 ≤ r.lb_RandRange ∧ 0 ≤ r.lb_DebugLevel ∧
    -1 ≤ r.lb_AltSleepValue ∧ -1 ≤ r.lb_AltRandRange

theorem scanDigitsAux_nonneg : ∀ (fuel : Nat) (cs : List Char) (acc : Int) (cnt : Nat),
    0 ≤ acc → 0 ≤ (scanDigitsAux fuel cs acc cnt).1 := by
  intro fuel
  induction fuel with
  | zero => intro cs acc cnt h; exact h
  | succ f ih =>
    intro cs acc cnt h
    cases cs with
    | nil => exact h
    | cons c r =>
      by_cases hd : isDigitC c = true
      · simp only [scanDigitsAux, if_pos hd]
        refine ih r _ (cnt + 1) ?_
        have hc : 48 ≤ c.toNat := by
          simp only [isDigitC, Bool.and_eq_true, decide_eq_true_eq] at hd
          exact hd.1
        simp only [digitVal]
        omega
      · simpa [scanDigitsAux, if_neg hd] using h

theorem scanDigits_nonneg (t : List Char) : 0 ≤ (scanDigits t).1 :=
  scanDigitsAux_nonneg MAX_ARG_DIGITS t 0 0 (le_refl 0)

theorem ExtractArgValue_nonneg (t : List Char) : 0 ≤ ExtractArgValue t :=
  scanDigits_nonneg t

theorem nextFieldAt_nonneg (t t1 : List Char) (v : Int) (j : Nat)
    (h : nextFieldAt t = some (v, j, t1)) : 0 ≤ v := by
  cases t with
  | nil => simp [nextFieldAt] at h
  | cons a ts =>
    simp only [nextFieldAt] at h
    split at h
    · rename_i ts2 heq
      injection h with h2
      have := scanDigits_nonneg ts2
      rw [h2] at this
      exact this
    · exact absurd h (by simp)

theorem compositeTail_wf (cfg : RawCfg) (t : List Char) (h : rawWF cfg) :
    rawWF (compositeTail cfg t) := by
  obtain ⟨w1, w2, w3, w4, w5⟩ := h
  unfold compositeTail
  split
  · exact ⟨w1, w2, w3, w4, w5⟩
  · rename_i v1 j1 t1 heq1
    have hv1 := nextFieldAt_nonneg _ _ _ _ heq1
    split
    · exact ⟨w1, hv1, w3, w4, w5⟩
    · rename_i v2 j2 t2 heq2
      have hv2 := nextFieldAt_nonneg _ _ _ _ heq2
      split
      · exact ⟨w1, hv1, hv2, w4, w5⟩
      · rename_i v3 j3 t3 heq3
        have hv3 := nextFieldAt_nonneg _ _ _ _ heq3
        have halt : -1 ≤ if j3 = 0 then cfg.SleepValue else v3 := by
          split
          · omega
          · omega
        split
        · exact ⟨w1, hv1, hv2, halt, w5⟩
        · rename_i v4 j4 t4 heq4
          have hv4 := nextFieldAt_nonneg _ _ _ _ heq4
          have hv4n : (-1 : Int) ≤ v4 := by omega
          exact ⟨w1, hv1, hv2, halt, hv4n⟩

/-- The scanning loop maintains `rawWF`. -/
theorem parseLoop_wf : ∀ (cs : List Char) (cfg r : RawCfg), rawWF cfg →
    parseLoop cfg cs = Except.ok r → rawWF r := by
  intro cs
  induction cs with
  | nil =>
    intro cfg r h hp
    simp only [parseLoop] at hp
    injection hp with h2
    rw [← h2]
    exact h
  | cons c rest ih =>
    intro cfg r h hp
    obtain ⟨w1, w2, w3, w4, w5⟩ := h
    simp only [parseLoop] at hp
    by_cases h1 : keyMatch kLatebloom (c :: rest) = true
    · rw [if_pos h1] at hp
      by_cases h2 : latebloomValue (List.drop 10 (c :: rest)) ≤ 0
      · rw [if_pos h2] at hp
        exact absurd hp (by simp)
      · rw [if_neg h2] at hp
        refine ih _ r ?_ hp
        have hs : 0 ≤ latebloomValue (List.drop 10 (c :: rest)) := by omega
        exact ⟨hs, w2, w3, w4, w5⟩
    · rw [if_neg h1] at hp
      by_cases h2 : keyMatch kDebug (c :: rest) = true
      · rw [if_pos h2] at hp
        refine ih _ r ?_ hp
        exact ⟨w1, w2, ExtractArgValue_nonneg _, w4, w5⟩
      · rw [if_neg h2] at hp
        by_cases h3 : keyMatch kRange (c :: rest) = true
        · rw [if_pos h3] at hp
          refine ih _ r ?_ hp
          exact ⟨w1, ExtractArgValue_nonneg _, w3, w4, w5⟩
        · rw [if_neg h3] at hp
          by_cases h4 : keyMatch kDelay2 (c :: rest) = true
          · rw [if_pos h4] at hp
            refine ih _ r ?_ hp
            refine ⟨w1, w2, w3, ?_, w5⟩
            show (-1 : Int) ≤ ExtractArgValue (List.drop 10 (c :: rest))
            have := ExtractArgValue_nonneg (List.drop 10 (c :: rest))
            omega
          · rw [if_neg h4] at hp
            by_cases h5 : keyMatch kRange2 (c :: rest) = true
            · rw [if_pos h5] at hp
              refine ih _ r ?_ hp
              refine ⟨w1, w2, w3, w4, ?_⟩
              show (-1 : Int) ≤ ExtractArgValue (List.drop 10 (c :: rest))
              have := ExtractArgValue_nonneg (List.drop 10 (c :: rest))
              omega
            · rw [if_neg h5] at hp
              by_cases h6 : keyMatch kLbloom (c :: rest) = true
              · rw [if_pos h6] at hp
                by_cases hz : (scanDigits (List.drop 7 (c :: rest))).1 = 0
                · simp only [applyComposite, if_pos hz] at hp
                  exact absurd hp (by simp)
                · simp only [applyComposite, if_neg hz] at hp
                  refine ih _ r (compositeTail_wf _ _ ?_) hp
                  exact ⟨scanDigits_nonneg _, le_refl 0, le_refl 0, w4, w5⟩
              · rw [if_neg h6] at hp
                exact ih _ r ⟨w1, w2, w3, w4, w5⟩ hp

/-- Value of the Phase-1 delay after `ppSleep`. -/
def pSleep (s : Int) : Int := if s = 0 then DEFAULT_SLEEP else s

/-- Value of the Phase-2 delay after `ppAlt` (given resolved delay `s`). -/
def pAlt (al s : Int) : Int := if al ≠ -1 then al else s

/-- Value of the Phase-1 range after `ppRange` (given resolved delay `s`). -/
def pRange (rg s : Int) : Int := if rg ≠ 0 then (if rg > s then s else rg) else rg

/-- Value of the Phase-2 range after `ppAltRange` (given resolved
Phase-1 range `rg` and Phase-2 delay `al`). -/
def pAltRange (ar rg al : Int) : Int :=
  if ar ≠ 0 then
    (if (if ar = -1 then rg else ar) > al then al else (if ar = -1 then rg else ar))
  else ar

theorem ppSleep_mk (s rg db al ar : Int) :
    ppSleep ⟨s, rg, db, al, ar⟩ = ⟨pSleep s, rg, db, al, ar⟩ := by
  by_cases h : s = 0 <;> simp [ppSleep, pSleep, h]

theorem ppAlt_mk (s rg db al ar : Int) :
    ppAlt ⟨s, rg, db, al, ar⟩ = ⟨s, rg, db, pAlt al s, ar⟩ := by
  by_cases h : al = -1 <;> simp [ppAlt, pAlt, h]

theorem ppRange_mk (s rg db al ar : Int) :
    ppRange ⟨s, rg, db, al, ar⟩ = ⟨s, pRange rg s, db, al, ar⟩ := by
  by_cases h1 : rg = 0
  · simp [ppRange, pRange, h1]
  · by_cases h2 : rg > s <;> simp [ppRange, pRange, h1, h2]

theorem ppAltRange_mk (s rg db al ar : Int) :
    ppAltRange ⟨s, rg, db, al, ar⟩ = ⟨s, rg, db, al, pAltRange ar rg al⟩ := by
  by_cases h1 : ar = 0
  · simp [ppAltRange, pAltRange, h1]
  · by_cases h2 : ar = -1
    · by_cases h3 : rg > al <;>
        simp [ppAltRange, ppAltRangeClamp, pAltRange, h1, h2, h3]
    · by_cases h3 : ar > al <;>
        simp [ppAltRange, ppAltRangeClamp, pAltRange, h1, h2, h3]

theorem postProcess_mk (s rg db al ar : Int) :
    postProcess ⟨s, rg, db, al, ar⟩ =
      ⟨pSleep s, pRange rg (pSleep s), db, pAlt al (pSleep s),
        pAltRange ar (pRange rg (pSleep s)) (pAlt al (pSleep s))⟩ := by
  unfold postProcess
  rw [ppSleep_mk, ppAlt_mk, ppRange_mk, ppAltRange_mk]

/-- **C6 (amended)**: after a successful parse, post-processing leaves
no `-1` sentinel; the final Phase-1 delay is positive (60 when the raw
delay was unset); an unset Phase-2 delay mirrors the resolved Phase-1
delay; an unset Phase-2 range becomes the resolved (already clamped)
Phase-1 range truncated to the Phase-2 delay, i.e. their minimum; and
each jitter range is at most its paired delay. -/
theorem C6_defaults (cs : List Char) (raw : RawCfg)
    (hp : parseLoop rawInit cs = Except.ok raw) :
    parseConfig cs = Except.ok (postProcess raw) ∧
    (postProcess raw).lb_AltSleepValue ≠ -1 ∧
    (postProcess raw).lb_AltRandRange ≠ -1 ∧
    0 < (postProcess raw).SleepValue ∧
    (postProcess raw).lb_RandRange ≤ (postProcess raw).SleepValue ∧
    (postProcess raw).lb_AltRandRange ≤ (postProcess raw).lb_AltSleepValue ∧
    (raw.SleepValue = 0 → (postProcess raw).SleepValue = DEFAULT_SLEEP) ∧
    (raw.lb_AltSleepValue = -1 →
      (postProcess raw).lb_AltSleepValue = (postProcess raw).SleepValue) ∧
    (raw.lb_AltRandRange = -1 →
      (postProcess raw).lb_AltRandRange =
        min (postProcess raw).lb_RandRange (postProcess raw).lb_AltSleepValue) := by
  have hwfinit : rawWF rawInit :=
    ⟨le_refl 0, le_refl 0, le_refl 0, le_refl (-1), le_refl (-1)⟩
  obtain ⟨s, rg, db, al, ar⟩ := raw
  have hwf : rawWF ⟨s, rg, db, al, ar⟩ := parseLoop_wf cs rawInit _ hwfinit hp
  obtain ⟨w1, w2, w3, w4, w5⟩ := hwf
  simp only [rawWF] at w1 w2 w3 w4 w5
  refine ⟨by simp [parseConfig, hp], ?_⟩
  clear hp
  rw [postProcess_mk]
  simp only [pSleep, pAlt, pRange, pAltRange, DEFAULT_SLEEP]
  split_ifs <;> omega

/-- **C6 (amended, witness)**: the spec's own example `lb_range=200`
with defaulted delay 60: the range is clamped to 60 and Phase 2
inherits both values. -/
theorem C6_defaults_witness :
    0 < (postProcess ⟨0, 200, 0, -1, -1⟩).SleepValue ∧
    (postProcess ⟨0, 200, 0, -1, -1⟩).lb_RandRange ≤
      (postProcess ⟨0, 200, 0, -1, -1⟩).SleepValue :=
  ⟨(C6_defaults (String.toList "lb_range=200") ⟨0, 200, 0, -1, -1⟩ (by rfl)).2.2.2.1,
   (C6_defaults (String.toList "lb_range=200") ⟨0, 200, 0, -1, -1⟩ (by rfl)).2.2.2.2.1⟩

/-- **C6 (counterexample)**: for boot-args `lb_range=50 lb_delay2=10`
the Phase-2 range is unset (`-1` after scanning), and post-processing
ends with `lb_AltRandRange = 10`, which differs from the resolved
Phase-1 range 50 — refuting "an unset Phase-2 range equals the resolved
Phase-1 range". -/
theorem C6_counterexample :
    parseLoop rawInit (String.toList "lb_range=50 lb_delay2=10") =
      Except.ok ⟨0, 50, 0, 10, -1⟩ ∧
    parseConfig (String.toList "lb_range=50 lb_delay2=10") =
      Except.ok ⟨60, 50, 0, 10, 10⟩ ∧
    ¬ ((10 : Int) = 50) := ⟨by rfl, by rfl, by decide⟩

/-! ## Claim C7: Mach-O segment search (klookup.c `FindSegment64`)

A load command is modelled as a record carrying the generic
`cmd`/`cmdsize` header plus the payload fields the code reads: the
segment name, `vmaddr` and `fileoff` for `LC_SEGMENT_64` records, and
`symoff`/`stroff`/`nsyms` for the `LC_SYMTAB` record (the payload is
meaningful only for the matching `cmd` value, as in C).  A Mach-O
header is its magic, `sizeofcmds`, and the command records laid out
consecutively right after the 32-byte `mach_header_64`. -/

structure LoadCmd where
  cmd : Nat
  cmdsize : Nat
  segname : String
  vmaddr : Int
  fileoff : Int
  symoff : Int
  stroff : Int
  nsyms : Nat
deriving DecidableEq, Repr

structure MachHeader64 where
  magic : Nat
  sizeofcmds : Nat
  cmds : List LoadCmd
deriving DecidableEq, Repr

def LC_SEGMENT_64 : Nat := 0x19

def LC_SYMTAB : Nat := 0x2

/-- `sizeof(struct mach_header_64)`. -/
def MACH_HEADER_SIZE : Nat := 32

/-- The loop of `FindSegment64` (klookup.c lines 43-59): `off` is the
byte offset of the current record from the header; the loop runs while
`off < sizeofcmds` (the C condition is
`LoadCommands < MachHeader + sizeofcmds`), tests `LC_SEGMENT_64`
records for an exact name match, and advances by `cmdsize`. -/
def FindSegment64Aux (name : String) (szcmds : Nat) : Nat → List LoadCmd → Option LoadCmd
  | _, [] => none
  | off, c :: rest =>
    if off < szcmds then
      if c.cmd = LC_SEGMENT_64 then
        if c.segname = name then some c
        else FindSegment64Aux name szcmds (off + c.cmdsize) rest
      else FindSegment64Aux name szcmds (off + c.cmdsize) rest
    else none

/-- `FindSegment64` (klookup.c lines 36-62). -/
def FindSegment64 (hdr : MachHeader64) (name : String) : Option LoadCmd :=
  FindSegment64Aux name hdr.sizeofcmds MACH_HEADER_SIZE hdr.cmds

/-- Follows the spec's words for claim C7: the walker examines the
load-command records "starting immediately after the header, for a
fixed total byte span (`sizeofcmds`)" — i.e. records whose offsets lie
in `[MACH_HEADER_SIZE, MACH_HEADER_SIZE + sizeofcmds)`.  To be compared
with `FindSegment64`, whose loop bound is `sizeofcmds` measured from
the header base itself. -/
def FindSegment64Spec (hdr : MachHeader64) (name : String) : Option LoadCmd :=
  FindSegment64Aux name (MACH_HEADER_SIZE + hdr.sizeofcmds) MACH_HEADER_SIZE hdr.cmds

/-- The records the loop actually examines, in order. -/
def cmdWalk (szcmds : Nat) : Nat → List LoadCmd → List LoadCmd
  | _, [] => []
  | off, c :: rest => if off < szcmds then c :: cmdWalk szcmds (off + c.cmdsize) rest else []

def isSegmentNamed (name : String) (c : LoadCmd) : Bool :=
  (c.cmd == LC_SEGMENT_64) && (c.segname == name)

theorem FindSegment64Aux_eq_find (name : String) (szcmds : Nat) :
    ∀ (l : List LoadCmd) (off : Nat),
      FindSegment64Aux name szcmds off l =
        (cmdWalk szcmds off l).find? (isSegmentNamed name) := by
  intro l
  induction l with
  | nil => intro off; rfl
  | cons c rest ih =>
    intro off
    simp only [FindSegment64Aux, cmdWalk]
    by_cases hoff : off < szcmds
    · rw [if_pos hoff, if_pos hoff]
      by_cases hc : c.cmd = LC_SEGMENT_64
      · rw [if_pos hc]
        by_cases hn : c.segname = name
        · rw [if_pos hn, List.find?_cons_of_pos _ (by simp [isSegmentNamed, hc, hn])]
        · rw [if_neg hn, List.find?_cons_of_neg _ (by simp [isSegmentNamed, hn])]
          exact ih (off + c.cmdsize)
      · rw [if_neg hc, List.find?_cons_of_neg _ (by simp [isSegmentNamed, hc])]
        exact ih (off + c.cmdsize)
    · rw [if_neg hoff, if_neg hoff]
      rfl

/-- **C7 (amended)**: `FindSegment64` walks exactly the load-command
records that start within `sizeofcmds` bytes of the header base (the
walk starts at offset `MACH_HEADER_SIZE`, so the last
`MACH_HEADER_SIZE` bytes of the command list are never examined) and
returns the first walked segment record whose name matches exactly, or
`none` when no walked record matches — in particular whenever
`sizeofcmds = 0`. -/
theorem C7_findSegment (hdr : MachHeader64) (name : String) :
    FindSegment64 hdr name =
      (cmdWalk hdr.sizeofcmds MACH_HEADER_SIZE hdr.cmds).find? (isSegmentNamed name) ∧
    (hdr.sizeofcmds = 0 → FindSegment64 hdr name = none) := by
  constructor
  · exact FindSegment64Aux_eq_find name hdr.sizeofcmds hdr.cmds MACH_HEADER_SIZE
  · intro h
    unfold FindSegment64
    rw [h]
    cases hdr.cmds with
    | nil => rfl
    | cons c rest => simp [FindSegment64Aux, MACH_HEADER_SIZE]

/-- A segment record of declared size 72 bytes. -/
def segBig : LoadCmd := ⟨0x19, 72, "__SEGA", 0, 0, 0, 0, 0⟩

/-- A small (synthetic, 24-byte) `__LINKEDIT` segment record. -/
def segLinkeditSmall : LoadCmd := ⟨0x19, 24, "__LINKEDIT", 0, 0, 0, 0, 0⟩

/-- A well-formed synthetic image: `sizeofcmds = 72 + 24 = 96` is the
total size of its two records, which start at header offsets 32 and
104. -/
def hdrC7 : MachHeader64 := ⟨0xfeedfacf, 96, [segBig, segLinkeditSmall]⟩

/-- **C7 (counterexample)**: on `hdrC7` the second record starts at
header offset 104, inside the command list's `sizeofcmds`-byte span
(records occupy offsets `[32, 128)`) — the claim's walk finds it, but
the code's loop bound `offset < sizeofcmds = 96` stops first and
returns `none` for `__LINKEDIT`. -/
theorem C7_counterexample :
    FindSegment64 hdrC7 "__LINKEDIT" = none ∧
      FindSegment64Spec hdrC7 "__LINKEDIT" = some segLinkeditSmall := by
  constructor <;> rfl

/-- **C7 (amended, witness)**: the first record of `hdrC7` is found, and
a zero-span image yields `none`. -/
theorem C7_findSegment_witness :
    FindSegment64 hdrC7 "__SEGA" = some segBig ∧
      FindSegment64 ⟨0xfeedfacf, 0, [segBig]⟩ "__SEGA" = none :=
  ⟨(C7_findSegment hdrC7 "__SEGA").1.trans (by rfl),
   (C7_findSegment ⟨0xfeedfacf, 0, [segBig]⟩ "__SEGA").2 rfl⟩

/-! ## Claims C8 and C9: symbol lookup (klookup.c `SymbolLookup`)

Kernel memory is modelled by fetch functions: `headerAt` reads a
Mach-O header at an address, `stringAt` reads a NUL-terminated string
(as a `List Char`), and `nlistAt` reads a 16-byte `nlist_64` record
(`n_strx` string-table offset and `n_value`).  `slidBase` is the
already-computed `Slide + KERNEL_BASE` (the slide itself comes from the
kernel-provided `vm_kernel_unslide_or_perm_external`).  The C statics
`SymbolTable`/`StringTable`/`NameList` are the `handle` of an explicit
`LookupState`; `resolveCount` instruments how many times the
resolution path has run. -/

structure SymEntry where
  n_strx : Nat
  n_value : Nat
deriving DecidableEq, Repr

structure SymHandle where
  nsyms : Nat
  strBase : Int
  symBase : Int
deriving DecidableEq, Repr

structure KernelMem where
  versionMajor : Nat
  slidBase : Int
  headerAt : Int → MachHeader64
  stringAt : Int → List Char
  nlistAt : Int → SymEntry

def MH_MAGIC_64 : Nat := 0xfeedfacf

def PRELINK_TEXT_NAME : String := "__PRELINK_TEXT"

def LINKEDIT_NAME : String := "__LINKEDIT"

/-- The `LC_SYMTAB` search loop (klookup.c lines 150-163): same walk as
`FindSegment64`, matching on `cmd == LC_SYMTAB`. -/
def FindSymtabAux (szcmds : Nat) : Nat → List LoadCmd → Option LoadCmd
  | _, [] => none
  | off, c :: rest =>
    if off < szcmds then
      if c.cmd = LC_SYMTAB then some c
      else FindSymtabAux szcmds (off + c.cmdsize) rest
    else none

def FindSymtabCmd (hdr : MachHeader64) : Option LoadCmd :=
  FindSymtabAux hdr.sizeofcmds MACH_HEADER_SIZE hdr.cmds

/-- The one-time resolution path of `SymbolLookup` (klookup.c lines
92-177): validate the magic at the slid base, optionally indirect
through `__PRELINK_TEXT` on Big Sur or later, locate `__LINKEDIT` and
the `LC_SYMTAB` command, and compute the string-table and name-list
base addresses from the segment's `vmaddr - fileoff` difference. -/
def resolveSymtab (mem : KernelMem) : Option SymHandle :=
  let hdr0 := mem.headerAt mem.slidBase
  if hdr0.magic ≠ MH_MAGIC_64 then none
  else
    let hdr :=
      if BIGSUR_XNU_MAJOR_VERSION ≤ mem.versionMajor then
        match FindSegment64 hdr0 PRELINK_TEXT_NAME with
        | some seg => mem.headerAt seg.vmaddr
        | none => hdr0
      else hdr0
    match FindSegment64 hdr LINKEDIT_NAME with
    | none => none
    | some le =>
      match FindSymtabCmd hdr with
      | none => none
      | some stc =>
        some ⟨stc.nsyms, le.vmaddr - le.fileoff + stc.stroff,
              le.vmaddr - le.fileoff + stc.symoff⟩

/-- The name-list scan (klookup.c lines 179-192): entry `i` sits 16
bytes past entry `i - 1`; its string is fetched at the string-table
base plus `n_strx` and compared to the queried symbol byte for byte;
the first match's `n_value` is returned, 0 (`NULL`) after exhausting
all `nsyms` entries. -/
def scanSymsAux (mem : KernelMem) (h : SymHandle) (sym : List Char) : Nat → Nat → Nat
  | _, 0 => 0
  | i, n + 1 =>
    let e := mem.nlistAt (h.symBase + 16 * (i : Int))
    if mem.stringAt (h.strBase + (e.n_strx : Int)) = sym then e.n_value
    else scanSymsAux mem h sym (i + 1) n

def scanSyms (mem : KernelMem) (h : SymHandle) (sym : List Char) : Nat :=
  scanSymsAux mem h sym 0 h.nsyms

structure LookupState where
  handle : Option SymHandle
  resolveCount : Nat
deriving DecidableEq, Repr

def initLookupState : LookupState := ⟨none, 0⟩

/-- `SymbolLookup` (klookup.c lines 73-203) as an explicit state
transformer over the C statics: if the handle is already populated the
resolution path is skipped entirely; otherwise it runs (bumping the
instrumentation counter) and, on success, populates the handle before
the scan. -/
def SymbolLookup (mem : KernelMem) (st : LookupState) (sym : List Char) :
    LookupState × Nat :=
  match st.handle with
  | some h => (st, scanSyms mem h sym)
  | none =>
    match resolveSymtab mem with
    | none => (⟨none, st.resolveCount + 1⟩, 0)
    | some h => (⟨some h, st.resolveCount + 1⟩, scanSyms mem h sym)

/-- The name-list entries, in scan order. -/
def symEntriesAux (mem : KernelMem) (h : SymHandle) : Nat → Nat → List SymEntry
  | _, 0 => []
  | i, n + 1 => mem.nlistAt (h.symBase + 16 * (i : Int)) :: symEntriesAux mem h (i + 1) n

def symEntries (mem : KernelMem) (h : SymHandle) : List SymEntry :=
  symEntriesAux mem h 0 h.nsyms

def entryMatches (mem : KernelMem) (h : SymHandle) (sym : List Char) (e : SymEntry) : Bool :=
  mem.stringAt (h.strBase + (e.n_strx : Int)) == sym

theorem scanSymsAux_eq_find (mem : KernelMem) (h : SymHandle) (sym : List Char) :
    ∀ (n i : Nat),
      scanSymsAux mem h sym i n =
        (match (symEntriesAux mem h i n).find? (entryMatches mem h sym) with
         | some e => e.n_value
         | none => 0) := by
  intro n
  induction n with
  | zero => intro i; rfl
  | succ n ih =>
    intro i
    simp only [scanSymsAux, symEntriesAux]
    by_cases hm : mem.stringAt
        (h.strBase + ((mem.nlistAt (h.symBase + 16 * (i : Int))).n_strx : Int)) = sym
    · rw [if_pos hm, List.find?_cons_of_pos _ (by simp [entryMatches, hm])]
    · rw [if_neg hm, List.find?_cons_of_neg _ (by simp [entryMatches, hm])]
      exact ih (i + 1)

theorem symEntriesAux_length (mem : KernelMem) (h : SymHandle) :
    ∀ (n i : Nat), (symEntriesAux mem h i n).length = n := by
  intro n
  induction n with
  | zero => intro i; rfl
  | succ n ih => intro i; simp [symEntriesAux, ih (i + 1)]

theorem symEntriesAux_get? (mem : KernelMem) (h : SymHandle) :
    ∀ (n i k : Nat), k < n →
      (symEntriesAux mem h i n).get? k =
        some (mem.nlistAt (h.symBase + 16 * (((i + k : Nat)) : Int))) := by
  intro n
  induction n with
  | zero => intro i k hk; omega
  | succ n ih =>
    intro i k hk
    cases k with
    | zero => simp [symEntriesAux]
    | succ k =>
      have hrec := ih (i + 1) k (by omega)
      have harith : i + 1 + k = i + (k + 1) := by omega
      rw [harith] at hrec
      simpa [symEntriesAux] using hrec

/-- **C8**: once the symbol table is resolved (`handle = some h`),
`SymbolLookup` performs a linear scan over all `nsyms` name-list
entries in order (entry `k` at `symBase + 16 * k`), compares each
entry's string — fetched at the string-table base plus its `n_strx`
offset — to the queried name by exact byte comparison, and returns the
first matching entry's `n_value`, or 0 (`NULL`, NotFound) after
exhausting all entries. -/
theorem C8_lookup_scan (mem : KernelMem) (st : LookupState) (h : SymHandle)
    (sym : List Char) (hh : st.handle = some h) :
    (SymbolLookup mem st sym).2 =
      (match (symEntries mem h).find? (entryMatches mem h sym) with
       | some e => e.n_value
       | none => 0) ∧
    (symEntries mem h).length = h.nsyms ∧
    (∀ k, k < h.nsyms → (symEntries mem h).get? k =
      some (mem.nlistAt (h.symBase + 16 * (k : Int)))) := by
  refine ⟨?_, symEntriesAux_length mem h h.nsyms 0, ?_⟩
  · simp only [SymbolLookup, hh]
    exact scanSymsAux_eq_find mem h sym h.nsyms 0
  · intro k hk
    have := symEntriesAux_get? mem h h.nsyms 0 k hk
    simpa [symEntries] using this

/-- A tiny synthetic kernel memory with a two-entry symbol table at
address 200 and the string `foo` at string-table offset 100. -/
def memEx : KernelMem :=
  { versionMajor := 20, slidBase := 0,
    headerAt := fun _ => ⟨0xfeedfacf, 0, []⟩,
    stringAt := fun a => if a = 100 then ['f', 'o', 'o'] else [],
    nlistAt := fun a => if a = 200 then ⟨100, 42⟩ else ⟨0, 7⟩ }

def handleEx : SymHandle := ⟨2, 0, 200⟩

def stEx : LookupState := ⟨some handleEx, 1⟩

/-- **C8 (witness)**: looking up `foo` in `memEx` from the resolved
state returns entry 0's value 42. -/
theorem C8_lookup_scan_witness : (SymbolLookup memEx stEx ['f', 'o', 'o']).2 = 42 :=
  (C8_lookup_scan memEx stEx handleEx ['f', 'o', 'o'] rfl).1.trans (by rfl)

/-- **C9**: once any lookup has populated the symbol-table handle, a
later `SymbolLookup` leaves the state (handle and resolution counter)
bit-identical — the resolution path does not run again — and repeating
the same lookup returns the identical value; and from an unresolved
state a successful resolution populates the handle while bumping the
resolution counter exactly once. -/
theorem C9_resolve_once (mem : KernelMem) (st : LookupState) (h : SymHandle)
    (n1 n2 : List Char) (hh : st.handle = some h) :
    (SymbolLookup mem st n1).1 = st ∧
    (SymbolLookup mem st n1).1.resolveCount = st.resolveCount ∧
    (SymbolLookup mem ((SymbolLookup mem st n1).1) n2).1 = st ∧
    (SymbolLookup mem ((SymbolLookup mem st n1).1) n1).2 = (SymbolLookup mem st n1).2 ∧
    (∀ st0 : LookupState, st0.handle = none → resolveSymtab mem = some h →
      (SymbolLookup mem st0 n1).1 = ⟨some h, st0.resolveCount + 1⟩) := by
  refine ⟨?_, ?_, ?_, ?_, ?_⟩
  · simp only [SymbolLookup, hh]
  · simp only [SymbolLookup, hh]
  · simp only [SymbolLookup, hh]
  · simp only [SymbolLookup, hh]
  · intro st0 h0 hres
    simp only [SymbolLookup, h0, hres]

/-- **C9 (witness)**: a lookup from the already-resolved `stEx` leaves
the state untouched. -/
theorem C9_resolve_once_witness : (SymbolLookup memEx stEx ['f', 'o', 'o']).1 = stEx :=
  (C9_resolve_once memEx stEx handleEx ['f', 'o', 'o'] ['b', 'a', 'r'] rfl).1

/-! ## Claim C10: the kernel-version gate of `latebloom_start` -/

/-- The module variables `latebloom_start` can write (cfuncs.c lines
166-195): the five config values, the hook/jump-back address
`lb_jump_address` (0 = hook not placed), and the selected pattern index
`WhichPattern`. -/
structure ModState where
  SleepValue : Int
  lb_RandRange : Int
  lb_DebugLevel : Int
  lb_AltSleepValue : Int
  lb_AltRandRange : Int
  lb_jump_address : Nat
  WhichPattern : Nat
deriving DecidableEq, Repr

/-- Initial values of the module variables (cfuncs.c lines 166-195). -/
def initModState : ModState := ⟨0, 0, 0, -1, -1, 0, 0⟩

/-- The environment `latebloom_start` reads: the kernel's major
version, whether the `_PE_boot_args` symbol resolves, the boot-args
string, and the probed code window of `IOPCIBridge::probeBus`. -/
structure StartEnv where
  version_major : Nat
  peBootArgsFound : Bool
  bootArgs : List Char
  probeBuf : Nat → Nat
  probeAddress : Nat

def rawOfState (st : ModState) : RawCfg :=
  ⟨st.SleepValue, st.lb_RandRange, st.lb_DebugLevel, st.lb_AltSleepValue,
    st.lb_AltRandRange⟩

def stateWithRaw (st : ModState) (r : RawCfg) : ModState :=
  { st with SleepValue := r.SleepValue, lb_RandRange := r.lb_RandRange,
            lb_DebugLevel := r.lb_DebugLevel, lb_AltSleepValue := r.lb_AltSleepValue,
            lb_AltRandRange := r.lb_AltRandRange }

/-- `latebloom_start` (cfuncs.c lines 411-743) over the module state:
the version gate (lines 423-428) returns before anything else; then the
one-shot boot-args parse (guarded by `SleepValue == 0`, aborting early
on a missing `_PE_boot_args` symbol or a user-disable value), and the
one-shot pattern scan and hook placement (guarded by
`lb_jump_address == 0`; the recorded jump-back address is the match
address plus the 14 patch bytes). -/
def latebloom_start (env : StartEnv) (st : ModState) : ModState :=
  if env.version_major < BIGSUR_XNU_MAJOR_VERSION then st
  else
    match
      (if st.SleepValue = 0 then
        (if env.peBootArgsFound = false then Except.error st
         else
           match parseLoop (rawOfState st) env.bootArgs with
           | Except.error r => Except.error (stateWithRaw st r)
           | Except.ok r => Except.ok (stateWithRaw st (postProcess r)))
       else Except.ok st)
    with
    | Except.error st1 => st1
    | Except.ok st1 =>
      if st1.lb_jump_address = 0 then
        match hookScan env.probeBuf with
        | none => { st1 with WhichPattern := BytePatterns.length }
        | some (off, w) =>
          { st1 with lb_jump_address := env.probeAddress + off + 14, WhichPattern := w }
      else st1

/-- **C10**: when the running kernel's major version is below 20 (Big
Sur), `latebloom_start` returns immediately: every module variable
keeps its value, so from the initial state nothing is parsed, no hook
address is recorded (`lb_jump_address` stays 0) and no pattern is
selected. -/
theorem C10_version_gate (env : StartEnv) (st : ModState)
    (h : env.version_major < BIGSUR_XNU_MAJOR_VERSION) :
    latebloom_start env st = st ∧
    latebloom_start env initModState = initModState ∧
    (latebloom_start env initModState).lb_jump_address = 0 ∧
    (latebloom_start env initModState).WhichPattern = 0 := by
  have h1 : latebloom_start env st = st := by simp [latebloom_start, h]
  have h2 : latebloom_start env initModState = initModState := by
    simp [latebloom_start, h]
  exact ⟨h1, h2, by rw [h2]; rfl, by rw [h2]; rfl⟩

/-- An environment reporting a Catalina (major version 19) kernel. -/
def envOld : StartEnv := ⟨19, true, [], fun _ => 0, 0⟩

/-- **C10 (witness)**: on a version-19 kernel the start routine leaves
the initial module state unchanged. -/
theorem C10_version_gate_witness : latebloom_start envOld initModState = initModState :=
  (C10_version_gate envOld initModState (by decide)).2.1

/-- A synthetic code window: one junk byte, then `BytePattern113`. -/
def bufC2 : Nat → Nat := fun n => if n = 0 then 255 else List.getD BytePattern113 (n - 1) 255

/-- **C2 (witness)**: on `bufC2` the signature sits at offset `1` and is
found there with pattern index `0`. -/
theorem C2_pattern_scan_witness : hookScan bufC2 = some (1, 0) :=
  (C2_pattern_scan bufC2).1 1 0 (by norm_num [HOOK_WINDOW_SIZE]) (by decide)
    (by decide)
